import Mathlib

/-!
Verification of the transaction-matching engine of the accounting-automation
repository: the bank-reconciliation module (`python/bank/reconciliation.py`)
and the duplicate detector (`python/card_processor/duplicate_detector.py`,
with the transaction record from `python/card_processor/csv_parsers/base.py`).

Modelling conventions:
* `Decimal` amounts and `float` confidences are modelled as `ℚ`.  All
  threshold comparisons made by the code (0.7, 0.9, tolerance bounds) are far
  from the rounding error of binary floats on the inputs used here, so the
  rational model agrees with the source on every branch taken.
* Python `date`/`datetime` values are modelled as `Int` day numbers
  (the code only ever uses day-level differences `(a - b).days` of
  midnight-normalised values and day-level equality).
* md5/sha256 content hashes are modelled injectively by the tuple of hashed
  fields: `ParsedTransaction.hash` covers exactly `(date, description,
  amount)` (`csv_parsers/base.py`, lines 38-42), so hash equality is
  modelled as equality of that triple.
* Python `set`s of ids are modelled as lists queried with `contains`.
* CPython object identity (`id(...)`, used by the candidate index of
  `_find_duplicate`) is modelled at the value level: an object of the indexed
  collection is in one of the probe buckets iff its amount key or date key
  coincides with the probe's; objects of a collection that was never indexed
  (the within-batch uniques, compared against an index built from the
  existing list only) are never in a bucket.  The `txn1 is txn2` early
  return of `_compare_transactions` never fires on the comparisons performed
  by `check_batch`/`check_single` over distinct list elements and is omitted.
-/

namespace AccountingAutomation

/-!
Exact rational arithmetic, written through `mkRat` so that every operation
reduces inside the kernel (the bridge lemmas `qAdd_eq` … below identify
these with the standard `ℚ` operations).
-/

/-- Rational addition through `mkRat`. -/
def qAdd (a b : ℚ) : ℚ :=
  mkRat (a.num * b.den + b.num * a.den) (a.den * b.den)

/-- Rational subtraction through `mkRat`. -/
def qSub (a b : ℚ) : ℚ :=
  mkRat (a.num * b.den - b.num * a.den) (a.den * b.den)

/-- Rational multiplication through `mkRat`. -/
def qMul (a b : ℚ) : ℚ :=
  mkRat (a.num * b.num) (a.den * b.den)

/-- Rational absolute value through `mkRat`. -/
def qAbs (a : ℚ) : ℚ :=
  mkRat (a.num.natAbs : ℤ) a.den

/-- Rational minimum. -/
def qMin (a b : ℚ) : ℚ :=
  if a ≤ b then a else b

/-- Rational maximum. -/
def qMax (a b : ℚ) : ℚ :=
  if a ≤ b then b else a

/-- First `some` produced by `f` along a list: models a Python
`for ...: if m: return m` scan. -/
def firstSome (f : α → Option β) : List α → Option β
  | [] => none
  | a :: as =>
    match f a with
    | some b => some b
    | none => firstSome f as

/-- `seqStarts n l` : the list `n` is an initial segment of `l`. -/
def seqStarts [DecidableEq α] : List α → List α → Bool
  | [], _ => true
  | _ :: _, [] => false
  | a :: as, b :: bs => a = b && seqStarts as bs

/-- `seqOccurs n l` : the list `n` occurs contiguously inside `l`
(Python `n in l` on strings, via their character lists). -/
def seqOccurs [DecidableEq α] (n : List α) : List α → Bool
  | [] => seqStarts n []
  | b :: bs => seqStarts n (b :: bs) || seqOccurs n bs

/-- Python substring test `needle in hay`. -/
def strOccurs (needle hay : String) : Bool :=
  seqOccurs needle.toList hay.toList

/-- Stable insertion used by `stableSort`: `a` goes after every element that
is strictly below it, before the first element that is not. -/
def insertSorted (lt : α → α → Bool) (a : α) : List α → List α
  | [] => [a]
  | b :: bs => if lt b a then b :: insertSorted lt a bs else a :: b :: bs

/-- Stable sort by the strict comparator `lt` (ascending): models Python's
stable `sorted`. -/
def stableSort (lt : α → α → Bool) (l : List α) : List α :=
  l.foldr (insertSorted lt) []

/-- First element of maximal key along a list: models Python's stable
`list.sort(key=..., reverse=True)` followed by taking element `[0]`
(`reconciliation.py`, lines 337-339). -/
def pickBest (f : α → ℚ) : List α → Option α
  | [] => none
  | c :: cs =>
    match pickBest f cs with
    | none => some c
    | some b => if f b > f c then some b else some c

/-! ## Duplicate detector (`card_processor/duplicate_detector.py`) -/

/-- `ParsedTransaction` of `csv_parsers/base.py` restricted to the fields the
duplicate detector reads (`posting_date`, `balance`, `transaction_type` and
`raw_data` are never consulted by it). -/
structure ParsedTxn where
  date : Int
  description : String
  merchant : String
  amount : ℚ
  reference : Option String
  deriving DecidableEq

/-- The content of `ParsedTransaction.hash` (`base.py`, lines 38-42):
`sha256(f"{date.isoformat()}|{description}|{amount}")`.  The hash covers
`(date, description, amount)` and nothing else; hash equality is modelled
as equality of this triple. -/
def ParsedTxn.hashData (t : ParsedTxn) : Int × String × ℚ :=
  (t.date, t.description, t.amount)

/-- The match reasons produced by `_compare_transactions`, as tags carrying
the data interpolated into the Python reason strings. -/
inductive Reason where
  | exactHashMatch
  | sameDate
  | withinDays (d : ℕ)
  | exactAmountMatch
  | amountWithinTolerance (pct : ℚ)
  | descriptionSimilar (sim : ℚ)
  | sameMerchant
  | sameReferenceNumber
  deriving DecidableEq

/-- `DuplicateMatch` dataclass. -/
structure DuplicateMatch where
  transaction : ParsedTxn
  matchedWith : ParsedTxn
  confidence : ℚ
  matchReasons : List Reason
  isLikelyDuplicate : Bool
  deriving DecidableEq

/-- Python `str.lower()`, character-wise (the descriptions and merchants
compared by the detector are ASCII). -/
def strLower (s : String) : String :=
  String.mk (s.toList.map Char.toLower)

/-- Worker of `words`: Python `str.split()` — maximal runs of
non-whitespace characters, no empty words. -/
def wordsAux : List Char → List Char → List (List Char)
  | [], acc => if acc = [] then [] else [acc.reverse]
  | c :: cs, acc =>
    if c.isWhitespace then
      if acc = [] then wordsAux cs [] else acc.reverse :: wordsAux cs []
    else wordsAux cs (c :: acc)

/-- Python `str.split()` of a string, as character lists. -/
def words (s : String) : List (List Char) :=
  wordsAux s.toList []

/-- `_string_similarity` (lines 295-317): case-normalised inputs are
supplied by the caller; word-set Jaccard index, 0 when either side is empty
or has no words. -/
def stringSimilarity (s1 s2 : String) : ℚ :=
  if s1 = "" ∨ s2 = "" then 0
  else
    let w1 := (words s1).dedup
    let w2 := (words s2).dedup
    if w1 = [] ∨ w2 = [] then 0
    else
      let inter := (w1.filter (fun w => decide (w ∈ w2))).length
      let union := (w1 ++ w2.filter (fun w => decide (w ∉ w1))).length
      if union > 0 then mkRat (inter : ℤ) union else 0

/-- Python truthiness of an optional string field. -/
def refOk : Option String → Bool
  | none => false
  | some r => r ≠ ""

/-- Contributions of steps 4-6 of `_compare_transactions` (lines 255-281):
description-similarity tiers, merchant similarity, reference equality.
Each step contributes its confidence increment and its reason. -/
def extraScore (t1 t2 : ParsedTxn) : ℚ × List Reason :=
  let ds := stringSimilarity (strLower t1.description) (strLower t2.description)
  let step4 : ℚ × List Reason :=
    if mkRat 8 10 < ds then (mkRat 3 10, [Reason.descriptionSimilar ds])
    else if mkRat 5 10 < ds then (mkRat 3 20, [Reason.descriptionSimilar ds])
    else (0, [])
  let step5 : ℚ × List Reason :=
    if t1.merchant ≠ "" ∧ t2.merchant ≠ "" ∧
        mkRat 8 10 < stringSimilarity (strLower t1.merchant) (strLower t2.merchant) then
      (mkRat 2 10, [Reason.sameMerchant])
    else (0, [])
  let step6 : ℚ × List Reason :=
    if refOk t1.reference ∧ refOk t2.reference ∧ t1.reference = t2.reference then
      (mkRat 3 10, [Reason.sameReferenceNumber])
    else (0, [])
  (qAdd (qAdd step4.1 step5.1) step6.1, step4.2 ++ step5.2 ++ step6.2)

/-- The final threshold of `_compare_transactions` (lines 283-293) applied
after steps 4-6: report iff the accumulated confidence reaches the 0.7
medium threshold, capping at 1.0 and flagging `is_likely_duplicate` at the
0.9 high threshold. -/
def finishCompare (t1 t2 : ParsedTxn) (conf0 : ℚ) (reasons0 : List Reason) :
    Option DuplicateMatch :=
  let total := qAdd conf0 (extraScore t1 t2).1
  if mkRat 7 10 ≤ total then
    some { transaction := t1, matchedWith := t2, confidence := qMin total 1,
           matchReasons := reasons0 ++ (extraScore t1 t2).2,
           isLikelyDuplicate := decide (mkRat 9 10 ≤ total) }
  else none

/-- `_compare_transactions` (lines 200-293): hash short-circuit, date hard
gate (0.3 same day / 0.1 within tolerance), amount hard gate (0.4 exact /
0.2 within `|txn1.amount| * tolerance`), then `finishCompare`. -/
def compareTransactions (dateTol : ℕ) (amtTol : ℚ) (t1 t2 : ParsedTxn) :
    Option DuplicateMatch :=
  if t1.hashData = t2.hashData then
    some { transaction := t1, matchedWith := t2, confidence := 1,
           matchReasons := [Reason.exactHashMatch], isLikelyDuplicate := true }
  else
    let dateDiff := (t1.date - t2.date).natAbs
    if dateDiff > dateTol then none
    else
      let dc : ℚ × List Reason :=
        if dateDiff = 0 then (mkRat 3 10, [Reason.sameDate])
        else (mkRat 1 10, [Reason.withinDays dateDiff])
      let amountDiff := qAbs (qSub t1.amount t2.amount)
      let tol := qMul (qAbs t1.amount) amtTol
      if amountDiff = 0 then
        finishCompare t1 t2 (qAdd dc.1 (mkRat 4 10)) (dc.2 ++ [Reason.exactAmountMatch])
      else if amountDiff ≤ tol then
        finishCompare t1 t2 (qAdd dc.1 (mkRat 2 10))
          (dc.2 ++ [Reason.amountWithinTolerance amtTol])
      else none

/-- `check_single` (lines 65-84): first matching existing transaction. -/
def checkSingle (dateTol : ℕ) (amtTol : ℚ) (t : ParsedTxn)
    (existing : List ParsedTxn) : Option DuplicateMatch :=
  firstSome (fun c => compareTransactions dateTol amtTol t c) existing

/-- `int(abs(txn.amount))`, the amount bucket key of `_build_index`. -/
def amountKey (a : ℚ) : ℕ :=
  (Rat.floor (qAbs a)).toNat

/-- A member `c` of the indexed collection sits in one of the two index
buckets probed for `t` iff its amount key or its date coincides with
`t`'s (`_build_index` lines 141-160 with `_find_duplicate` lines 180-185). -/
def inIndexBuckets (t c : ParsedTxn) : Bool :=
  amountKey c.amount = amountKey t.amount || c.date = t.date

/-- `_find_duplicate` (lines 162-198).  `indexed = true` when `candidates`
is the collection the index was built from (the existing history);
`indexed = false` when it is the within-batch uniques list, whose objects
are never in the index.  A candidate survives the shortlist filter iff it
is in a probed bucket or the whole collection is smaller than 100. -/
def findDuplicate (dateTol : ℕ) (amtTol : ℚ) (indexed : Bool) (t : ParsedTxn)
    (candidates : List ParsedTxn) : Option DuplicateMatch :=
  let small := decide (candidates.length < 100)
  let filtered := candidates.filter (fun c => (indexed && inIndexBuckets t c) || small)
  firstSome (fun c => compareTransactions dateTol amtTol t c) filtered

/-- Accumulator of the `check_batch` loop. -/
structure DedupAcc where
  unique : List ParsedTxn
  potential : List DuplicateMatch
  definite : List DuplicateMatch
  deriving DecidableEq

/-- One iteration of the `check_batch` loop (lines 106-124): existing
history first, then the already-accepted uniques of the batch; a match is
definite at confidence ≥ 0.9, otherwise potential; no match appends to the
uniques. -/
def checkBatchStep (dateTol : ℕ) (amtTol : ℚ) (existing : List ParsedTxn)
    (acc : DedupAcc) (txn : ParsedTxn) : DedupAcc :=
  match findDuplicate dateTol amtTol true txn existing with
  | some m =>
    if mkRat 9 10 ≤ m.confidence then { acc with definite := acc.definite ++ [m] }
    else { acc with potential := acc.potential ++ [m] }
  | none =>
    match findDuplicate dateTol amtTol false txn acc.unique with
    | some m =>
      if mkRat 9 10 ≤ m.confidence then { acc with definite := acc.definite ++ [m] }
      else { acc with potential := acc.potential ++ [m] }
    | none => { acc with unique := acc.unique ++ [txn] }

/-- The `stats` dict of `check_batch` (lines 126-137). -/
structure DedupStats where
  totalChecked : ℕ
  unique : ℕ
  potentialDuplicates : ℕ
  definiteDuplicates : ℕ
  duplicateRate : ℚ
  deriving DecidableEq

/-- `DeduplicationResult`. -/
structure DedupResult where
  uniqueTransactions : List ParsedTxn
  potentialDuplicates : List DuplicateMatch
  definiteDuplicates : List DuplicateMatch
  stats : DedupStats
  deriving DecidableEq

/-- `check_batch` (lines 86-139). -/
def checkBatch (dateTol : ℕ) (amtTol : ℚ) (transactions existing : List ParsedTxn) :
    DedupResult :=
  let acc := transactions.foldl (checkBatchStep dateTol amtTol existing) ⟨[], [], []⟩
  let total := transactions.length
  { uniqueTransactions := acc.unique
    potentialDuplicates := acc.potential
    definiteDuplicates := acc.definite
    stats :=
      { totalChecked := total
        unique := acc.unique.length
        potentialDuplicates := acc.potential.length
        definiteDuplicates := acc.definite.length
        duplicateRate :=
          if total > 0 then
            mkRat ((acc.potential.length + acc.definite.length : ℕ) : ℤ) total
          else 0 } }

/-! ## Bank reconciliation (`bank/reconciliation.py`) -/

/-- `BankTransaction` restricted to the fields `reconcile` reads
(`balance`, `transaction_type` and `raw_data` are never consulted by the
matcher). -/
structure BankTxn where
  id : String
  date : Int
  description : String
  amount : ℚ
  reference : Option String
  deriving DecidableEq

/-- `BookTransaction` restricted to the fields `reconcile` reads
(`account_code`, `account_name`, `entity`, `source` and `reconciled` are
never consulted by the matcher). -/
structure BookTxn where
  id : String
  date : Int
  description : String
  amount : ℚ
  reference : Option String
  deriving DecidableEq

/-- `MatchType` enum.  (`descriptionPattern` renders the `DESCRIPTION`
variant, which the matcher never produces.) -/
inductive MatchType where
  | exact
  | amountOnly
  | fuzzy
  | reference
  | descriptionPattern
  deriving DecidableEq

/-- `MatchStatus` enum.  (`partialMatch` renders the `PARTIAL` variant.) -/
inductive MatchStatus where
  | matched
  | partialMatch
  | unmatched
  | duplicate
  | manualReview
  deriving DecidableEq

/-- `MatchedTransaction` dataclass (the constant-empty `notes` field is
omitted). -/
structure MatchedTxn where
  bankTxn : BankTxn
  bookTxn : BookTxn
  matchType : MatchType
  confidence : ℚ
  dateDiffDays : ℕ
  amountDiff : ℚ
  deriving DecidableEq

/-- `_amounts_match` (lines 403-418): equal amounts always pass, otherwise
the difference must stay within `|amount1| * tolerance`. -/
def amountsMatch (amtTol : ℚ) (a1 a2 : ℚ) : Bool :=
  if a1 = a2 then true
  else decide (qAbs (qSub a1 a2) ≤ qMul (qAbs a1) amtTol)

/-- `_create_match` (lines 420-445). -/
def createMatch (b : BankTxn) (t : BookTxn) (mt : MatchType) (conf : ℚ) :
    MatchedTxn :=
  { bankTxn := b, bookTxn := t, matchType := mt, confidence := conf,
    dateDiffDays := (b.date - t.date).natAbs,
    amountDiff := qAbs (qSub b.amount t.amount) }

/-- `_try_match` (lines 365-401): amount hard gate, then date hard gate,
then type and confidence from the date difference and amount equality. -/
def tryMatch (dateTol : ℕ) (amtTol : ℚ) (b : BankTxn) (t : BookTxn) :
    Option MatchedTxn :=
  if amountsMatch amtTol b.amount t.amount = false then none
  else
    let dateDiff := (b.date - t.date).natAbs
    if dateDiff > dateTol then none
    else if dateDiff = 0 ∧ b.amount = t.amount then
      some (createMatch b t MatchType.exact 1)
    else if dateDiff = 0 then
      some (createMatch b t MatchType.amountOnly (mkRat 19 20))
    else
      some (createMatch b t MatchType.fuzzy
        (qMax (mkRat 7 10) (qSub 1 (qMul (dateDiff : ℚ) (mkRat 1 10)))))

/-- The mutable state threaded through the three phases of `reconcile`:
the `matched_bank_ids` and `matched_book_ids` sets and the growing
`result.matched` list. -/
structure ReconState where
  bankIds : List String
  bookIds : List String
  matched : List MatchedTxn
  deriving DecidableEq

/-- The phase-1 test of one book transaction (inner loop body, lines
290-299): skip already-matched books; only an `EXACT` `_try_match` result
is accepted. -/
def phase1Probe (dateTol : ℕ) (amtTol : ℚ) (s : ReconState) (b : BankTxn)
    (t : BookTxn) : Option (MatchedTxn × BookTxn) :=
  if t.id ∈ s.bookIds then none
  else
    match tryMatch dateTol amtTol b t with
    | some m => if m.matchType = MatchType.exact then some (m, t) else none
    | none => none

/-- Phase 1 body for one bank transaction (lines 285-299): the first
still-unmatched book transaction whose `_try_match` is an `EXACT` match is
committed. -/
def phase1Step (dateTol : ℕ) (amtTol : ℚ) (books : List BookTxn)
    (s : ReconState) (b : BankTxn) : ReconState :=
  if b.id ∈ s.bankIds then s
  else
    match firstSome (phase1Probe dateTol amtTol s b) books with
    | some (m, t) =>
      { bankIds := s.bankIds ++ [b.id], bookIds := s.bookIds ++ [t.id],
        matched := s.matched ++ [m] }
    | none => s

/-- The phase-2 test of one book transaction (inner loop body, lines
309-313): skip already-matched books; accept a truthy book reference that
contains the bank reference as a substring. -/
def phase2Probe (s : ReconState) (b : BankTxn) (t : BookTxn) : Option BookTxn :=
  if t.id ∈ s.bookIds then none
  else if refOk t.reference &&
      strOccurs (b.reference.getD "") (t.reference.getD "") then some t
  else none

/-- Phase 2 body for one bank transaction (lines 301-320): a truthy bank
reference found as substring of the truthy reference of the first
still-unmatched book transaction commits a `REFERENCE` match with
confidence 0.9 — with no amount or date gate. -/
def phase2Step (books : List BookTxn) (s : ReconState) (b : BankTxn) :
    ReconState :=
  if b.id ∈ s.bankIds then s
  else if refOk b.reference = false then s
  else
    match firstSome (phase2Probe s b) books with
    | some t =>
      { bankIds := s.bankIds ++ [b.id], bookIds := s.bookIds ++ [t.id],
        matched := s.matched ++ [createMatch b t MatchType.reference (mkRat 9 10)] }
    | none => s

/-- The phase-3 candidate test of one book transaction (lines 328-334):
skip already-matched books; keep a `_try_match` result that reaches the
0.7 confidence threshold. -/
def phase3Cand (dateTol : ℕ) (amtTol : ℚ) (s : ReconState) (b : BankTxn)
    (t : BookTxn) : Option (MatchedTxn × BookTxn) :=
  if t.id ∈ s.bookIds then none
  else
    match tryMatch dateTol amtTol b t with
    | some m => if mkRat 7 10 ≤ m.confidence then some (m, t) else none
    | none => none

/-- Phase 3 body for one bank transaction (lines 322-342): collect every
still-unmatched book transaction whose `_try_match` reaches the 0.7
confidence threshold, then commit the best candidate (stable sort by
confidence descending, take the first — `pickBest`). -/
def phase3Step (dateTol : ℕ) (amtTol : ℚ) (books : List BookTxn)
    (s : ReconState) (b : BankTxn) : ReconState :=
  if b.id ∈ s.bankIds then s
  else
    let cands := books.filterMap (phase3Cand dateTol amtTol s b)
    match pickBest (fun c => c.1.confidence) cands with
    | some (m, t) =>
      { bankIds := s.bankIds ++ [b.id], bookIds := s.bookIds ++ [t.id],
        matched := s.matched ++ [m] }
    | none => s

/-- Strict `(date, amount)` key order used to sort both transaction lists
(line 282-283). -/
def bankLt (a b : BankTxn) : Bool :=
  decide (a.date < b.date ∨ (a.date = b.date ∧ a.amount < b.amount))

/-- Strict `(date, amount)` key order for book transactions. -/
def bookLt (a b : BookTxn) : Bool :=
  decide (a.date < b.date ∨ (a.date = b.date ∧ a.amount < b.amount))

/-- Phase 1 over the whole sorted bank list. -/
def phase1Run (dateTol : ℕ) (amtTol : ℚ) (bankS : List BankTxn)
    (bookS : List BookTxn) : ReconState :=
  bankS.foldl (phase1Step dateTol amtTol bookS) ⟨[], [], []⟩

/-- Phase 2 over the whole sorted bank list. -/
def phase2Run (bankS : List BankTxn) (bookS : List BookTxn) (s : ReconState) :
    ReconState :=
  bankS.foldl (phase2Step bookS) s

/-- Phase 3 over the whole sorted bank list. -/
def phase3Run (dateTol : ℕ) (amtTol : ℚ) (bankS : List BankTxn)
    (bookS : List BookTxn) (s : ReconState) : ReconState :=
  bankS.foldl (phase3Step dateTol amtTol bookS) s

/-- One entry of the `possible_matches` dicts built by
`_find_possible_matches` (lines 447-482). -/
structure PossibleMatch where
  bookId : String
  amount : ℚ
  date : Int
  description : String
  dateDiffDays : ℕ
  deriving DecidableEq

/-- `_find_possible_matches`: every still-unmatched book transaction within
the amount tolerance, sorted by date proximity, top 5 kept. -/
def findPossibleMatches (amtTol : ℚ) (b : BankTxn) (books : List BookTxn)
    (matchedIds : List String) : List PossibleMatch :=
  let possible := books.filterMap (fun t =>
    if t.id ∈ matchedIds then none
    else if amountsMatch amtTol b.amount t.amount then
      some { bookId := t.id, amount := t.amount, date := t.date,
             description := t.description,
             dateDiffDays := (b.date - t.date).natAbs }
    else none)
  (stableSort (fun x y => decide (x.dateDiffDays < y.dateDiffDays)) possible).take 5

/-- `UnmatchedItem` with a bank transaction inside. -/
structure UnmatchedBankItem where
  transaction : BankTxn
  status : MatchStatus
  possibleMatches : List PossibleMatch
  deriving DecidableEq

/-- `UnmatchedItem` with a book transaction inside (book items get no
suggestion search). -/
structure UnmatchedBookItem where
  transaction : BookTxn
  status : MatchStatus
  deriving DecidableEq

/-- `ReconciliationResult` restricted to the fields the matcher writes and
the derived properties read by the claims (`entity`, `account`, period
bounds and `reconciled_at` carry no matching content and are omitted). -/
structure ReconciliationResult where
  bankOpeningBalance : ℚ
  bankClosingBalance : ℚ
  bookOpeningBalance : ℚ
  bookClosingBalance : ℚ
  matched : List MatchedTxn
  unmatchedBank : List UnmatchedBankItem
  unmatchedBook : List UnmatchedBookItem
  deriving DecidableEq

/-- `match_rate` property (lines 143-149). -/
def ReconciliationResult.matchRate (r : ReconciliationResult) : ℚ :=
  let totalBank := r.matched.length + r.unmatchedBank.length
  if totalBank = 0 then 0
  else qMul (mkRat (r.matched.length : ℤ) totalBank) 100

/-- `difference` property (lines 166-169). -/
def ReconciliationResult.difference (r : ReconciliationResult) : ℚ :=
  qSub r.bankClosingBalance r.bookClosingBalance

/-- `is_reconciled` property (lines 171-174). -/
def ReconciliationResult.isReconciled (r : ReconciliationResult) : Bool :=
  decide (qAbs r.difference < mkRat 1 100) && r.unmatchedBank.isEmpty

/-- `reconcile` (lines 235-363): sort both sides by `(date, amount)`, run
the three phases, then collect unmatched items (bank side with suggestions
and `MANUAL_REVIEW`/`UNMATCHED` status, book side plain `UNMATCHED`). -/
def reconcile (bankTxns : List BankTxn) (bookTxns : List BookTxn)
    (bankOpening bankClosing bookOpening bookClosing : ℚ)
    (dateTol : ℕ) (amtTol : ℚ) : ReconciliationResult :=
  let bankS := stableSort bankLt bankTxns
  let bookS := stableSort bookLt bookTxns
  let s1 := phase1Run dateTol amtTol bankS bookS
  let s2 := phase2Run bankS bookS s1
  let s3 := phase3Run dateTol amtTol bankS bookS s2
  let ub := bankS.filterMap (fun b =>
    if b.id ∈ s3.bankIds then none
    else
      let possible := findPossibleMatches amtTol b bookS s3.bookIds
      some { transaction := b,
             status := if possible.isEmpty then MatchStatus.unmatched
                       else MatchStatus.manualReview,
             possibleMatches := possible })
  let uk := bookS.filterMap (fun t =>
    if t.id ∈ s3.bookIds then none
    else some { transaction := t, status := MatchStatus.unmatched })
  { bankOpeningBalance := bankOpening, bankClosingBalance := bankClosing,
    bookOpeningBalance := bookOpening, bookClosingBalance := bookClosing,
    matched := s3.matched, unmatchedBank := ub, unmatchedBook := uk }

/-- Proof-side invariant: both hard gates hold for every committed
non-reference match in the state. -/
def reconGatesInv (d : ℕ) (p : ℚ) (s : ReconState) : Prop :=
  ∀ m ∈ s.matched, m.matchType ≠ MatchType.reference →
    (m.bankTxn.date - m.bookTxn.date).natAbs ≤ d ∧
    |m.bankTxn.amount - m.bookTxn.amount| ≤ |m.bankTxn.amount| * p

/-- Proof-side invariant: the committed matches use pairwise-distinct bank
ids and pairwise-distinct book ids, and every committed id has been added
to the corresponding id set. -/
def reconIdInv (s : ReconState) : Prop :=
  ((s.matched.map fun m => m.bankTxn.id).Nodup) ∧
  ((s.matched.map fun m => m.bookTxn.id).Nodup) ∧
  ∀ m ∈ s.matched, m.bankTxn.id ∈ s.bankIds ∧ m.bookTxn.id ∈ s.bookIds

/-! ## Bridge lemmas for the kernel-reducible rational operations -/

theorem num_cast_eq_mul_den (a : ℚ) : (a.num : ℚ) = a * (a.den : ℚ) :=
  (div_eq_iff (Nat.cast_ne_zero.mpr (Rat.den_ne_zero a))).mp (Rat.num_div_den a)

theorem qAdd_eq (a b : ℚ) : qAdd a b = a + b := by
  have ha : ((a.den : ℚ)) ≠ 0 := Nat.cast_ne_zero.mpr (Rat.den_ne_zero a)
  have hb : ((b.den : ℚ)) ≠ 0 := Nat.cast_ne_zero.mpr (Rat.den_ne_zero b)
  rw [qAdd, Rat.mkRat_eq_div]
  push_cast
  rw [div_eq_iff (by exact mul_ne_zero ha hb), num_cast_eq_mul_den a,
    num_cast_eq_mul_den b]
  ring

theorem qSub_eq (a b : ℚ) : qSub a b = a - b := by
  have ha : ((a.den : ℚ)) ≠ 0 := Nat.cast_ne_zero.mpr (Rat.den_ne_zero a)
  have hb : ((b.den : ℚ)) ≠ 0 := Nat.cast_ne_zero.mpr (Rat.den_ne_zero b)
  rw [qSub, Rat.mkRat_eq_div]
  push_cast
  rw [div_eq_iff (by exact mul_ne_zero ha hb), num_cast_eq_mul_den a,
    num_cast_eq_mul_den b]
  ring

theorem qMul_eq (a b : ℚ) : qMul a b = a * b := by
  have ha : ((a.den : ℚ)) ≠ 0 := Nat.cast_ne_zero.mpr (Rat.den_ne_zero a)
  have hb : ((b.den : ℚ)) ≠ 0 := Nat.cast_ne_zero.mpr (Rat.den_ne_zero b)
  rw [qMul, Rat.mkRat_eq_div]
  push_cast
  rw [div_eq_iff (by exact mul_ne_zero ha hb), num_cast_eq_mul_den a,
    num_cast_eq_mul_den b]
  ring

theorem qAbs_eq (a : ℚ) : qAbs a = |a| := by
  have ha : ((a.den : ℚ)) ≠ 0 := Nat.cast_ne_zero.mpr (Rat.den_ne_zero a)
  rw [qAbs, Rat.mkRat_eq_div]
  rcases le_or_lt 0 a.num with h | h
  · rw [Int.natAbs_of_nonneg h, abs_of_nonneg (by rwa [← Rat.num_nonneg])]
    rw [Rat.num_div_den]
  · have hneg : a < 0 :=
      lt_of_not_ge (fun hge => absurd (Rat.num_nonneg.mpr hge) (not_le.mpr h))
    rw [Int.ofNat_natAbs_of_nonpos (le_of_lt h), abs_of_neg hneg]
    push_cast
    rw [neg_div, Rat.num_div_den]

theorem qMin_eq (a b : ℚ) : qMin a b = min a b := (min_def a b).symm

theorem qMax_eq (a b : ℚ) : qMax a b = max a b := (max_def a b).symm

/-! ## Helper lemmas -/

theorem firstSome_cons_some {f : α → Option β} {a : α} {as : List α} {b : β}
    (h : f a = some b) : firstSome f (a :: as) = some b := by
  simp only [firstSome, h]

theorem firstSome_cons_none {f : α → Option β} {a : α} {as : List α}
    (h : f a = none) : firstSome f (a :: as) = firstSome f as := by
  simp only [firstSome, h]

theorem firstSome_eq_some {f : α → Option β} (l : List α) (b : β)
    (h : firstSome f l = some b) : ∃ a ∈ l, f a = some b := by
  induction l with
  | nil => simp [firstSome] at h
  | cons a as ih =>
    cases hfa : f a with
    | some c =>
      rw [firstSome_cons_some hfa] at h
      exact ⟨a, List.mem_cons_self a as, by rw [hfa, h]⟩
    | none =>
      rw [firstSome_cons_none hfa] at h
      obtain ⟨x, hx, hfx⟩ := ih h
      exact ⟨x, List.mem_cons_of_mem a hx, hfx⟩

theorem firstSome_isSome_of_mem {f : α → Option β} {l : List α} {a : α} {c : β}
    (ha : a ∈ l) (hfa : f a = some c) : ∃ b, firstSome f l = some b := by
  induction l with
  | nil => cases ha
  | cons x xs ih =>
    cases hfx : f x with
    | some d => exact ⟨d, firstSome_cons_some hfx⟩
    | none =>
      rw [firstSome_cons_none hfx]
      rcases List.mem_cons.mp ha with h | h
      · subst h; rw [hfx] at hfa; cases hfa
      · exact ih h

theorem foldl_preserve {P : β → Prop} {step : β → α → β}
    (hstep : ∀ acc x, P acc → P (step acc x)) :
    ∀ (l : List α) (init : β), P init → P (l.foldl step init)
  | [], _, h => h
  | x :: xs, init, h => foldl_preserve hstep xs (step init x) (hstep init x h)

theorem nodup_append_singleton {l : List α} {a : α} (h : l.Nodup) (ha : a ∉ l) :
    (l ++ [a]).Nodup := by
  rw [List.nodup_append]
  refine ⟨h, List.nodup_singleton a, ?_⟩
  intro x hx hxa
  rw [List.mem_singleton] at hxa
  subst hxa
  exact ha hx

theorem find_congr {p q : α → Bool} (l : List α) (h : ∀ x ∈ l, p x = q x) :
    l.find? p = l.find? q := by
  induction l with
  | nil => rfl
  | cons a as ih =>
    have ha := h a (List.mem_cons_self a as)
    simp only [List.find?]
    rw [ha]
    cases hq : q a
    · exact ih (fun x hx => h x (List.mem_cons_of_mem a hx))
    · rfl

theorem pickBest_cons_none {f : α → ℚ} {c : α} {cs : List α}
    (h : pickBest f cs = none) : pickBest f (c :: cs) = some c := by
  simp only [pickBest, h]

theorem pickBest_cons_some {f : α → ℚ} {c b : α} {cs : List α}
    (h : pickBest f cs = some b) :
    pickBest f (c :: cs) = if f b > f c then some b else some c := by
  simp only [pickBest, h]

theorem pickBest_cons_ne_none {f : α → ℚ} (c : α) (cs : List α) :
    pickBest f (c :: cs) ≠ none := by
  cases h : pickBest f cs with
  | none => rw [pickBest_cons_none h]; simp
  | some b => rw [pickBest_cons_some h]; split <;> simp

theorem pickBest_mem_max {f : α → ℚ} :
    ∀ (l : List α) (b : α), pickBest f l = some b → b ∈ l ∧ ∀ y ∈ l, f y ≤ f b := by
  intro l
  induction l with
  | nil => intro b h; simp [pickBest] at h
  | cons c cs ih =>
    intro b h
    cases hcs : pickBest f cs with
    | none =>
      rw [pickBest_cons_none hcs] at h
      injection h with h
      subst h
      have hnil : cs = [] := by
        cases cs with
        | nil => rfl
        | cons x xs => exact absurd hcs (pickBest_cons_ne_none x xs)
      subst hnil
      refine ⟨List.mem_cons_self _ _, ?_⟩
      intro y hy
      rcases List.mem_cons.mp hy with rfl | hy
      · exact le_refl _
      · cases hy
    | some a =>
      rw [pickBest_cons_some hcs] at h
      obtain ⟨ha, hmax⟩ := ih a hcs
      by_cases hac : f a > f c
      · rw [if_pos hac] at h
        injection h with h
        subst h
        refine ⟨List.mem_cons_of_mem _ ha, ?_⟩
        intro y hy
        rcases List.mem_cons.mp hy with rfl | hy
        · exact le_of_lt hac
        · exact hmax y hy
      · rw [if_neg hac] at h
        injection h with h
        subst h
        refine ⟨List.mem_cons_self _ _, ?_⟩
        intro y hy
        rcases List.mem_cons.mp hy with rfl | hy
        · exact le_refl _
        · exact le_trans (hmax y hy) (not_lt.mp hac)

theorem pickBest_eq_first_max {f : α → ℚ} :
    ∀ l : List α,
      pickBest f l = l.find? (fun x => l.all (fun y => decide (f y ≤ f x))) := by
  intro l
  induction l with
  | nil => rfl
  | cons c cs ih =>
    cases hcs : pickBest f cs with
    | none =>
      have hnil : cs = [] := by
        cases cs with
        | nil => rfl
        | cons x xs => exact absurd hcs (pickBest_cons_ne_none x xs)
      subst hnil
      rw [pickBest_cons_none hcs]
      simp [List.find?]
    | some b =>
      obtain ⟨hb, hmax⟩ := pickBest_mem_max cs b hcs
      rw [pickBest_cons_some hcs]
      by_cases hbc : f b > f c
      · rw [if_pos hbc]
        have hpredc : ((c :: cs).all (fun y => decide (f y ≤ f c))) = false := by
          apply Bool.eq_false_iff.mpr
          intro hall
          rw [List.all_eq_true] at hall
          have hble := of_decide_eq_true (hall b (List.mem_cons_of_mem c hb))
          exact absurd hble (not_le.mpr hbc)
        simp only [List.find?]
        rw [hpredc]
        have hcong : ∀ x ∈ cs,
            ((c :: cs).all (fun y => decide (f y ≤ f x))) =
              (cs.all (fun y => decide (f y ≤ f x))) := by
          intro x hx
          rw [List.all_cons]
          cases hall : cs.all (fun y => decide (f y ≤ f x))
          · simp
          · have hfb : f b ≤ f x :=
              of_decide_eq_true ((List.all_eq_true.mp hall) b hb)
            have hfc : f c ≤ f x := le_trans (le_of_lt hbc) hfb
            simp [hfc]
        rw [find_congr cs hcong, ← ih, hcs]
      · rw [if_neg hbc]
        have hpredc : ((c :: cs).all (fun y => decide (f y ≤ f c))) = true := by
          rw [List.all_eq_true]
          intro y hy
          rcases List.mem_cons.mp hy with rfl | hy
          · simp
          · exact decide_eq_true (le_trans (hmax y hy) (not_lt.mp hbc))
        simp only [List.find?]
        rw [hpredc]

theorem amountsMatch_antitone {p pt : ℚ} (hpp : pt ≤ p) (a1 a2 : ℚ)
    (h : amountsMatch pt a1 a2 = true) : amountsMatch p a1 a2 = true := by
  rw [amountsMatch] at h ⊢
  by_cases heq : a1 = a2
  · rw [if_pos heq]
  · rw [if_neg heq] at h ⊢
    rw [decide_eq_true_iff] at h ⊢
    calc qAbs (qSub a1 a2) ≤ qMul (qAbs a1) pt := h
    _ ≤ qMul (qAbs a1) p := by
        rw [qMul_eq, qMul_eq, qAbs_eq]
        exact mul_le_mul_of_nonneg_left hpp (abs_nonneg a1)

theorem tryMatch_antitone {d dt : ℕ} {p pt : ℚ} (hd : dt ≤ d) (hp : pt ≤ p)
    (b : BankTxn) (t : BookTxn) (m : MatchedTxn)
    (h : tryMatch dt pt b t = some m) : tryMatch d p b t = some m := by
  simp only [tryMatch] at h ⊢
  by_cases hA : amountsMatch pt b.amount t.amount = false
  · rw [if_pos hA] at h
    cases h
  · have hA1 : amountsMatch pt b.amount t.amount = true := by
      cases hv : amountsMatch pt b.amount t.amount
      · exact absurd hv hA
      · rfl
    have hA2 : amountsMatch p b.amount t.amount = true :=
      amountsMatch_antitone hp _ _ hA1
    rw [if_neg hA] at h
    rw [if_neg (by simp [hA2])]
    by_cases hdate : (b.date - t.date).natAbs > dt
    · rw [if_pos hdate] at h
      cases h
    · rw [if_neg hdate] at h
      rw [if_neg (by omega : ¬ (b.date - t.date).natAbs > d)]
      exact h

theorem finishCompare_fields {t1 t2 : ParsedTxn} {c0 : ℚ} {r : List Reason}
    {m : DuplicateMatch} (h : finishCompare t1 t2 c0 r = some m) :
    m.transaction = t1 ∧ m.matchedWith = t2 := by
  simp only [finishCompare] at h
  split at h
  · injection h with h
    rw [← h]
    exact ⟨rfl, rfl⟩
  · cases h

theorem finishCompare_congr (t1 t2 : ParsedTxn) (c0 : ℚ) (r r2 : List Reason)
    (m : DuplicateMatch) (h : finishCompare t1 t2 c0 r = some m) :
    ∃ m2, finishCompare t1 t2 c0 r2 = some m2 ∧ m2.confidence = m.confidence ∧
      m2.isLikelyDuplicate = m.isLikelyDuplicate ∧
      m2.transaction = m.transaction ∧ m2.matchedWith = m.matchedWith := by
  simp only [finishCompare] at h ⊢
  split at h
  · injection h with h
    rw [if_pos (by assumption)]
    exact ⟨_, rfl, by rw [← h], by rw [← h], by rw [← h], by rw [← h]⟩
  · cases h

theorem compare_antitone {d dt : ℕ} {p pt : ℚ} (hd : dt ≤ d) (hp : pt ≤ p)
    (t1 t2 : ParsedTxn) (m : DuplicateMatch)
    (h : compareTransactions dt pt t1 t2 = some m) :
    ∃ m2, compareTransactions d p t1 t2 = some m2 ∧ m2.confidence = m.confidence ∧
      m2.isLikelyDuplicate = m.isLikelyDuplicate ∧
      m2.transaction = m.transaction ∧ m2.matchedWith = m.matchedWith := by
  simp only [compareTransactions] at h ⊢
  by_cases hh : t1.hashData = t2.hashData
  · rw [if_pos hh] at h ⊢
    exact ⟨m, h, rfl, rfl, rfl, rfl⟩
  · rw [if_neg hh] at h ⊢
    by_cases hdate : (t1.date - t2.date).natAbs > dt
    · rw [if_pos hdate] at h
      cases h
    · rw [if_neg hdate] at h
      rw [if_neg (by omega : ¬ (t1.date - t2.date).natAbs > d)]
      by_cases hz : qAbs (qSub t1.amount t2.amount) = 0
      · rw [if_pos hz] at h ⊢
        exact ⟨m, h, rfl, rfl, rfl, rfl⟩
      · rw [if_neg hz] at h ⊢
        by_cases htol : qAbs (qSub t1.amount t2.amount) ≤ qMul (qAbs t1.amount) pt
        · rw [if_pos htol] at h
          have htol2 : qAbs (qSub t1.amount t2.amount) ≤ qMul (qAbs t1.amount) p := by
            calc qAbs (qSub t1.amount t2.amount) ≤ qMul (qAbs t1.amount) pt := htol
            _ ≤ qMul (qAbs t1.amount) p := by
                rw [qMul_eq, qMul_eq, qAbs_eq]
                exact mul_le_mul_of_nonneg_left hp (abs_nonneg t1.amount)
          rw [if_pos htol2]
          exact finishCompare_congr t1 t2 _ _ _ m h
        · rw [if_neg htol] at h
          cases h

theorem amountsMatch_le {p : ℚ} (hp : 0 ≤ p) {a1 a2 : ℚ}
    (h : amountsMatch p a1 a2 = true) : |a1 - a2| ≤ |a1| * p := by
  rw [amountsMatch] at h
  by_cases heq : a1 = a2
  · rw [heq, sub_self, abs_zero]
    exact mul_nonneg (abs_nonneg _) hp
  · rw [if_neg heq, decide_eq_true_iff] at h
    simp only [qAbs_eq, qSub_eq, qMul_eq] at h
    exact h

theorem tryMatch_shape {d : ℕ} {p : ℚ} {b : BankTxn} {t : BookTxn}
    {m : MatchedTxn} (h : tryMatch d p b t = some m) :
    (∃ mt conf, m = createMatch b t mt conf) ∧
    amountsMatch p b.amount t.amount = true ∧ (b.date - t.date).natAbs ≤ d := by
  simp only [tryMatch] at h
  by_cases hA : amountsMatch p b.amount t.amount = false
  · rw [if_pos hA] at h
    cases h
  · have hA1 : amountsMatch p b.amount t.amount = true := by
      cases hv : amountsMatch p b.amount t.amount
      · exact absurd hv hA
      · rfl
    rw [if_neg hA] at h
    by_cases hdate : (b.date - t.date).natAbs > d
    · rw [if_pos hdate] at h
      cases h
    · rw [if_neg hdate] at h
      refine ⟨?_, hA1, le_of_not_lt hdate⟩
      split at h
      · injection h with h
        exact ⟨_, _, h.symm⟩
      · split at h
        · injection h with h
          exact ⟨_, _, h.symm⟩
        · injection h with h
          exact ⟨_, _, h.symm⟩

theorem tryMatch_gates {d : ℕ} {p : ℚ} (hp : 0 ≤ p) {b : BankTxn} {t : BookTxn}
    {m : MatchedTxn} (h : tryMatch d p b t = some m) :
    (m.bankTxn.date - m.bookTxn.date).natAbs ≤ d ∧
    |m.bankTxn.amount - m.bookTxn.amount| ≤ |m.bankTxn.amount| * p := by
  obtain ⟨⟨mt, conf, rfl⟩, hA, hD⟩ := tryMatch_shape h
  exact ⟨hD, amountsMatch_le hp hA⟩

theorem tryMatch_bank_book {d : ℕ} {p : ℚ} {b : BankTxn} {t : BookTxn}
    {m : MatchedTxn} (h : tryMatch d p b t = some m) :
    m.bankTxn = b ∧ m.bookTxn = t := by
  obtain ⟨⟨mt, conf, rfl⟩, -, -⟩ := tryMatch_shape h
  exact ⟨rfl, rfl⟩

theorem compare_gates {d : ℕ} {p : ℚ} (hp : 0 ≤ p) {t1 t2 : ParsedTxn}
    {m : DuplicateMatch} (h : compareTransactions d p t1 t2 = some m) :
    m.transaction = t1 ∧ m.matchedWith = t2 ∧ (t1.date - t2.date).natAbs ≤ d ∧
    |t1.amount - t2.amount| ≤ |t1.amount| * p := by
  simp only [compareTransactions] at h
  by_cases hh : t1.hashData = t2.hashData
  · rw [if_pos hh] at h
    injection h with h
    have h1 : t1.date = t2.date := congrArg (fun x => x.1) hh
    have h2 : t1.amount = t2.amount := congrArg (fun x => x.2.2) hh
    refine ⟨by rw [← h], by rw [← h], ?_, ?_⟩
    · rw [h1, sub_self]
      simp
    · rw [h2, sub_self, abs_zero]
      exact mul_nonneg (abs_nonneg _) hp
  · rw [if_neg hh] at h
    by_cases hdate : (t1.date - t2.date).natAbs > d
    · rw [if_pos hdate] at h
      cases h
    · rw [if_neg hdate] at h
      have hdd := le_of_not_lt hdate
      by_cases hz : qAbs (qSub t1.amount t2.amount) = 0
      · rw [if_pos hz] at h
        obtain ⟨ht, hw⟩ := finishCompare_fields h
        refine ⟨ht, hw, hdd, ?_⟩
        simp only [qAbs_eq, qSub_eq] at hz
        rw [hz]
        exact mul_nonneg (abs_nonneg _) hp
      · rw [if_neg hz] at h
        by_cases htol : qAbs (qSub t1.amount t2.amount) ≤ qMul (qAbs t1.amount) p
        · rw [if_pos htol] at h
          obtain ⟨ht, hw⟩ := finishCompare_fields h
          simp only [qAbs_eq, qSub_eq, qMul_eq] at htol
          exact ⟨ht, hw, hdd, htol⟩
        · rw [if_neg htol] at h
          cases h

theorem findDuplicate_gates {d : ℕ} {p : ℚ} (hp : 0 ≤ p) {idx : Bool}
    {t : ParsedTxn} {cs : List ParsedTxn} {m : DuplicateMatch}
    (h : findDuplicate d p idx t cs = some m) :
    (m.transaction.date - m.matchedWith.date).natAbs ≤ d ∧
    |m.transaction.amount - m.matchedWith.amount| ≤ |m.transaction.amount| * p := by
  simp only [findDuplicate] at h
  obtain ⟨c, -, hc⟩ := firstSome_eq_some _ _ h
  obtain ⟨h1, h2, h3, h4⟩ := compare_gates hp hc
  rw [h1, h2]
  exact ⟨h3, h4⟩

theorem checkSingle_gates {d : ℕ} {p : ℚ} (hp : 0 ≤ p) {t : ParsedTxn}
    {existing : List ParsedTxn} {m : DuplicateMatch}
    (h : checkSingle d p t existing = some m) :
    (m.transaction.date - m.matchedWith.date).natAbs ≤ d ∧
    |m.transaction.amount - m.matchedWith.amount| ≤ |m.transaction.amount| * p := by
  simp only [checkSingle] at h
  obtain ⟨c, -, hc⟩ := firstSome_eq_some _ _ h
  obtain ⟨h1, h2, h3, h4⟩ := compare_gates hp hc
  rw [h1, h2]
  exact ⟨h3, h4⟩

theorem checkBatchStep_ex_def {d : ℕ} {p : ℚ} {existing : List ParsedTxn}
    {acc : DedupAcc} {x : ParsedTxn} {m0 : DuplicateMatch}
    (hf : findDuplicate d p true x existing = some m0)
    (hc : mkRat 9 10 ≤ m0.confidence) :
    checkBatchStep d p existing acc x =
      { acc with definite := acc.definite ++ [m0] } := by
  simp only [checkBatchStep, hf, if_pos hc]

theorem checkBatchStep_ex_pot {d : ℕ} {p : ℚ} {existing : List ParsedTxn}
    {acc : DedupAcc} {x : ParsedTxn} {m0 : DuplicateMatch}
    (hf : findDuplicate d p true x existing = some m0)
    (hc : ¬ mkRat 9 10 ≤ m0.confidence) :
    checkBatchStep d p existing acc x =
      { acc with potential := acc.potential ++ [m0] } := by
  simp only [checkBatchStep, hf, if_neg hc]

theorem checkBatchStep_ba_def {d : ℕ} {p : ℚ} {existing : List ParsedTxn}
    {acc : DedupAcc} {x : ParsedTxn} {m0 : DuplicateMatch}
    (hf : findDuplicate d p true x existing = none)
    (hf2 : findDuplicate d p false x acc.unique = some m0)
    (hc : mkRat 9 10 ≤ m0.confidence) :
    checkBatchStep d p existing acc x =
      { acc with definite := acc.definite ++ [m0] } := by
  simp only [checkBatchStep, hf, hf2, if_pos hc]

theorem checkBatchStep_ba_pot {d : ℕ} {p : ℚ} {existing : List ParsedTxn}
    {acc : DedupAcc} {x : ParsedTxn} {m0 : DuplicateMatch}
    (hf : findDuplicate d p true x existing = none)
    (hf2 : findDuplicate d p false x acc.unique = some m0)
    (hc : ¬ mkRat 9 10 ≤ m0.confidence) :
    checkBatchStep d p existing acc x =
      { acc with potential := acc.potential ++ [m0] } := by
  simp only [checkBatchStep, hf, hf2, if_neg hc]

theorem checkBatchStep_uni {d : ℕ} {p : ℚ} {existing : List ParsedTxn}
    {acc : DedupAcc} {x : ParsedTxn}
    (hf : findDuplicate d p true x existing = none)
    (hf2 : findDuplicate d p false x acc.unique = none) :
    checkBatchStep d p existing acc x =
      { acc with unique := acc.unique ++ [x] } := by
  simp only [checkBatchStep, hf, hf2]

theorem checkBatch_gates {d : ℕ} {p : ℚ} (hp : 0 ≤ p)
    (txns existing : List ParsedTxn) :
    ∀ m ∈ (checkBatch d p txns existing).potentialDuplicates ++
          (checkBatch d p txns existing).definiteDuplicates,
      (m.transaction.date - m.matchedWith.date).natAbs ≤ d ∧
      |m.transaction.amount - m.matchedWith.amount| ≤
        |m.transaction.amount| * p := by
  have hstep : ∀ (acc : DedupAcc) (x : ParsedTxn),
      (∀ m ∈ acc.potential ++ acc.definite,
        (m.transaction.date - m.matchedWith.date).natAbs ≤ d ∧
        |m.transaction.amount - m.matchedWith.amount| ≤
          |m.transaction.amount| * p) →
      ∀ m ∈ (checkBatchStep d p existing acc x).potential ++
            (checkBatchStep d p existing acc x).definite,
        (m.transaction.date - m.matchedWith.date).natAbs ≤ d ∧
        |m.transaction.amount - m.matchedWith.amount| ≤
          |m.transaction.amount| * p := by
    intro acc x hP m hm
    cases hf : findDuplicate d p true x existing with
    | some m0 =>
      by_cases hc : mkRat 9 10 ≤ m0.confidence
      · rw [checkBatchStep_ex_def hf hc] at hm
        simp only [List.mem_append, List.mem_singleton] at hm
        rcases hm with h | h | h
        · exact hP m (List.mem_append.mpr (Or.inl h))
        · exact hP m (List.mem_append.mpr (Or.inr h))
        · subst h
          exact findDuplicate_gates hp hf
      · rw [checkBatchStep_ex_pot hf hc] at hm
        simp only [List.mem_append, List.mem_singleton] at hm
        rcases hm with (h | h) | h
        · exact hP m (List.mem_append.mpr (Or.inl h))
        · subst h
          exact findDuplicate_gates hp hf
        · exact hP m (List.mem_append.mpr (Or.inr h))
    | none =>
      cases hf2 : findDuplicate d p false x acc.unique with
      | some m0 =>
        by_cases hc : mkRat 9 10 ≤ m0.confidence
        · rw [checkBatchStep_ba_def hf hf2 hc] at hm
          simp only [List.mem_append, List.mem_singleton] at hm
          rcases hm with h | h | h
          · exact hP m (List.mem_append.mpr (Or.inl h))
          · exact hP m (List.mem_append.mpr (Or.inr h))
          · subst h
            exact findDuplicate_gates hp hf2
        · rw [checkBatchStep_ba_pot hf hf2 hc] at hm
          simp only [List.mem_append, List.mem_singleton] at hm
          rcases hm with (h | h) | h
          · exact hP m (List.mem_append.mpr (Or.inl h))
          · subst h
            exact findDuplicate_gates hp hf2
          · exact hP m (List.mem_append.mpr (Or.inr h))
      | none =>
        rw [checkBatchStep_uni hf hf2] at hm
        exact hP m hm
  exact foldl_preserve hstep txns ⟨[], [], []⟩ (by intro m hm; simp at hm)

theorem checkBatchStep_count {d : ℕ} {p : ℚ} {existing : List ParsedTxn}
    (acc : DedupAcc) (x : ParsedTxn) :
    (checkBatchStep d p existing acc x).potential.length +
    (checkBatchStep d p existing acc x).definite.length +
    (checkBatchStep d p existing acc x).unique.length =
    acc.potential.length + acc.definite.length + acc.unique.length + 1 := by
  cases hf : findDuplicate d p true x existing with
  | some m0 =>
    by_cases hc : mkRat 9 10 ≤ m0.confidence
    · rw [checkBatchStep_ex_def hf hc]
      simp [List.length_append]
      omega
    · rw [checkBatchStep_ex_pot hf hc]
      simp [List.length_append]
      omega
  | none =>
    cases hf2 : findDuplicate d p false x acc.unique with
    | some m0 =>
      by_cases hc : mkRat 9 10 ≤ m0.confidence
      · rw [checkBatchStep_ba_def hf hf2 hc]
        simp [List.length_append]
        omega
      · rw [checkBatchStep_ba_pot hf hf2 hc]
        simp [List.length_append]
        omega
    | none =>
      rw [checkBatchStep_uni hf hf2]
      simp [List.length_append]
      omega

theorem checkBatch_count {d : ℕ} {p : ℚ} (txns existing : List ParsedTxn) :
    (checkBatch d p txns existing).potentialDuplicates.length +
    (checkBatch d p txns existing).definiteDuplicates.length +
    (checkBatch d p txns existing).uniqueTransactions.length = txns.length := by
  suffices h : ∀ (l : List ParsedTxn) (acc : DedupAcc),
      (l.foldl (checkBatchStep d p existing) acc).potential.length +
      (l.foldl (checkBatchStep d p existing) acc).definite.length +
      (l.foldl (checkBatchStep d p existing) acc).unique.length =
      acc.potential.length + acc.definite.length + acc.unique.length + l.length by
    have h2 := h txns ⟨[], [], []⟩
    simpa using h2
  intro l
  induction l with
  | nil => intro acc; simp
  | cons x xs ih =>
    intro acc
    rw [List.foldl_cons, ih (checkBatchStep d p existing acc x),
      checkBatchStep_count, List.length_cons]
    omega

theorem phase1Probe_some {d : ℕ} {p : ℚ} {s : ReconState} {b : BankTxn}
    {a : BookTxn} {m0 : MatchedTxn} {t0 : BookTxn}
    (h : phase1Probe d p s b a = some (m0, t0)) :
    a.id ∉ s.bookIds ∧ tryMatch d p b a = some m0 ∧ t0 = a ∧
    m0.matchType = MatchType.exact := by
  rw [phase1Probe] at h
  by_cases hba : a.id ∈ s.bookIds
  · rw [if_pos hba] at h
    cases h
  · rw [if_neg hba] at h
    cases htm : tryMatch d p b a with
    | none =>
      rw [htm] at h
      cases h
    | some mm =>
      rw [htm] at h
      have h2 : (if mm.matchType = MatchType.exact then some (mm, a) else none) =
          some (m0, t0) := h
      by_cases hex : mm.matchType = MatchType.exact
      · rw [if_pos hex] at h2
        injection h2 with h2
        obtain ⟨e1, e2⟩ := Prod.mk.injEq mm a m0 t0 |>.mp h2
        rw [e1] at hex
        exact ⟨hba, congrArg some e1, e2.symm, hex⟩
      · rw [if_neg hex] at h2
        cases h2

theorem phase2Probe_some {s : ReconState} {b : BankTxn} {a t0 : BookTxn}
    (h : phase2Probe s b a = some t0) :
    a.id ∉ s.bookIds ∧ t0 = a := by
  rw [phase2Probe] at h
  by_cases hba : a.id ∈ s.bookIds
  · rw [if_pos hba] at h
    cases h
  · rw [if_neg hba] at h
    by_cases hcond : (refOk a.reference &&
        strOccurs (b.reference.getD "") (a.reference.getD "")) = true
    · rw [if_pos hcond] at h
      injection h with h
      exact ⟨hba, h.symm⟩
    · rw [if_neg hcond] at h
      cases h

theorem phase3Cand_some {d : ℕ} {p : ℚ} {s : ReconState} {b : BankTxn}
    {a : BookTxn} {m0 : MatchedTxn} {t0 : BookTxn}
    (h : phase3Cand d p s b a = some (m0, t0)) :
    a.id ∉ s.bookIds ∧ tryMatch d p b a = some m0 ∧ t0 = a ∧
    mkRat 7 10 ≤ m0.confidence := by
  rw [phase3Cand] at h
  by_cases hba : a.id ∈ s.bookIds
  · rw [if_pos hba] at h
    cases h
  · rw [if_neg hba] at h
    cases htm : tryMatch d p b a with
    | none =>
      rw [htm] at h
      cases h
    | some mm =>
      rw [htm] at h
      have h2 : (if mkRat 7 10 ≤ mm.confidence then some (mm, a) else none) =
          some (m0, t0) := h
      by_cases hcf : mkRat 7 10 ≤ mm.confidence
      · rw [if_pos hcf] at h2
        injection h2 with h2
        obtain ⟨e1, e2⟩ := Prod.mk.injEq mm a m0 t0 |>.mp h2
        rw [e1] at hcf
        exact ⟨hba, congrArg some e1, e2.symm, hcf⟩
      · rw [if_neg hcf] at h2
        cases h2

theorem phase1Step_skip {d : ℕ} {p : ℚ} {books : List BookTxn} {s : ReconState}
    {b : BankTxn} (hb : b.id ∈ s.bankIds) : phase1Step d p books s b = s := by
  simp only [phase1Step, if_pos hb]

theorem phase1Step_none {d : ℕ} {p : ℚ} {books : List BookTxn} {s : ReconState}
    {b : BankTxn} (hb : b.id ∉ s.bankIds)
    (hf : firstSome (phase1Probe d p s b) books = none) :
    phase1Step d p books s b = s := by
  simp only [phase1Step, if_neg hb, hf]

theorem phase1Step_commit {d : ℕ} {p : ℚ} {books : List BookTxn}
    {s : ReconState} {b : BankTxn} {m0 : MatchedTxn} {t0 : BookTxn}
    (hb : b.id ∉ s.bankIds)
    (hf : firstSome (phase1Probe d p s b) books = some (m0, t0)) :
    phase1Step d p books s b =
      ⟨s.bankIds ++ [b.id], s.bookIds ++ [t0.id], s.matched ++ [m0]⟩ := by
  simp only [phase1Step, if_neg hb, hf]

theorem phase2Step_skip {books : List BookTxn} {s : ReconState} {b : BankTxn}
    (hb : b.id ∈ s.bankIds) : phase2Step books s b = s := by
  simp only [phase2Step, if_pos hb]

theorem phase2Step_noref {books : List BookTxn} {s : ReconState} {b : BankTxn}
    (hrv : refOk b.reference = false) : phase2Step books s b = s := by
  by_cases hb : b.id ∈ s.bankIds
  · simp only [phase2Step, if_pos hb]
  · simp only [phase2Step, if_neg hb, hrv]
    simp

theorem phase2Step_none {books : List BookTxn} {s : ReconState} {b : BankTxn}
    (hb : b.id ∉ s.bankIds) (hrv : refOk b.reference = true)
    (hf : firstSome (phase2Probe s b) books = none) :
    phase2Step books s b = s := by
  simp only [phase2Step, if_neg hb, hrv, hf]
  simp

theorem phase2Step_commit {books : List BookTxn} {s : ReconState} {b : BankTxn}
    {t0 : BookTxn} (hb : b.id ∉ s.bankIds) (hrv : refOk b.reference = true)
    (hf : firstSome (phase2Probe s b) books = some t0) :
    phase2Step books s b =
      ⟨s.bankIds ++ [b.id], s.bookIds ++ [t0.id],
       s.matched ++ [createMatch b t0 MatchType.reference (mkRat 9 10)]⟩ := by
  simp only [phase2Step, if_neg hb, hrv, hf]
  simp

theorem phase3Step_skip {d : ℕ} {p : ℚ} {books : List BookTxn} {s : ReconState}
    {b : BankTxn} (hb : b.id ∈ s.bankIds) : phase3Step d p books s b = s := by
  simp only [phase3Step, if_pos hb]

theorem phase3Step_none {d : ℕ} {p : ℚ} {books : List BookTxn} {s : ReconState}
    {b : BankTxn} (hb : b.id ∉ s.bankIds)
    (hf : pickBest (fun c => c.1.confidence)
      (books.filterMap (phase3Cand d p s b)) = none) :
    phase3Step d p books s b = s := by
  simp only [phase3Step, if_neg hb, hf]

theorem phase3Step_commit {d : ℕ} {p : ℚ} {books : List BookTxn}
    {s : ReconState} {b : BankTxn} {m0 : MatchedTxn} {t0 : BookTxn}
    (hb : b.id ∉ s.bankIds)
    (hf : pickBest (fun c => c.1.confidence)
      (books.filterMap (phase3Cand d p s b)) = some (m0, t0)) :
    phase3Step d p books s b =
      ⟨s.bankIds ++ [b.id], s.bookIds ++ [t0.id], s.matched ++ [m0]⟩ := by
  simp only [phase3Step, if_neg hb, hf]

theorem phase1Step_cases {d : ℕ} {p : ℚ} {books : List BookTxn}
    {s : ReconState} {b : BankTxn} :
    phase1Step d p books s b = s ∨
    ∃ m0 t0, b.id ∉ s.bankIds ∧ t0.id ∉ s.bookIds ∧
      tryMatch d p b t0 = some m0 ∧ m0.matchType = MatchType.exact ∧
      phase1Step d p books s b =
        ⟨s.bankIds ++ [b.id], s.bookIds ++ [t0.id], s.matched ++ [m0]⟩ := by
  by_cases hb : b.id ∈ s.bankIds
  · exact Or.inl (phase1Step_skip hb)
  · cases hf : firstSome (phase1Probe d p s b) books with
    | none => exact Or.inl (phase1Step_none hb hf)
    | some mt =>
      obtain ⟨m0, t0⟩ := mt
      obtain ⟨a, ha, hfa⟩ := firstSome_eq_some _ _ hf
      obtain ⟨h1, h2, h3, h4⟩ := phase1Probe_some hfa
      refine Or.inr ⟨m0, t0, hb, ?_, ?_, h4, phase1Step_commit hb hf⟩
      · rw [h3]
        exact h1
      · rw [h3]
        exact h2

theorem phase2Step_cases {books : List BookTxn} {s : ReconState} {b : BankTxn} :
    phase2Step books s b = s ∨
    ∃ t0 : BookTxn, b.id ∉ s.bankIds ∧ t0.id ∉ s.bookIds ∧
      phase2Step books s b =
        ⟨s.bankIds ++ [b.id], s.bookIds ++ [t0.id],
         s.matched ++ [createMatch b t0 MatchType.reference (mkRat 9 10)]⟩ := by
  by_cases hb : b.id ∈ s.bankIds
  · exact Or.inl (phase2Step_skip hb)
  · cases hrv : refOk b.reference with
    | false => exact Or.inl (phase2Step_noref hrv)
    | true =>
      cases hf : firstSome (phase2Probe s b) books with
      | none => exact Or.inl (phase2Step_none hb hrv hf)
      | some t0 =>
        obtain ⟨a, ha, hfa⟩ := firstSome_eq_some _ _ hf
        obtain ⟨h1, h2⟩ := phase2Probe_some hfa
        refine Or.inr ⟨t0, hb, ?_, phase2Step_commit hb hrv hf⟩
        rw [h2]
        exact h1

theorem phase3Step_cases {d : ℕ} {p : ℚ} {books : List BookTxn}
    {s : ReconState} {b : BankTxn} :
    phase3Step d p books s b = s ∨
    ∃ m0 t0, b.id ∉ s.bankIds ∧ t0.id ∉ s.bookIds ∧
      tryMatch d p b t0 = some m0 ∧
      phase3Step d p books s b =
        ⟨s.bankIds ++ [b.id], s.bookIds ++ [t0.id], s.matched ++ [m0]⟩ := by
  by_cases hb : b.id ∈ s.bankIds
  · exact Or.inl (phase3Step_skip hb)
  · cases hf : pickBest (fun c => c.1.confidence)
        (books.filterMap (phase3Cand d p s b)) with
    | none => exact Or.inl (phase3Step_none hb hf)
    | some mt =>
      obtain ⟨m0, t0⟩ := mt
      obtain ⟨hmem, -⟩ := pickBest_mem_max _ _ hf
      obtain ⟨a, ha, hfa⟩ := List.mem_filterMap.mp hmem
      obtain ⟨h1, h2, h3, h4⟩ := phase3Cand_some hfa
      refine Or.inr ⟨m0, t0, hb, ?_, ?_, phase3Step_commit hb hf⟩
      · rw [h3]
        exact h1
      · rw [h3]
        exact h2

theorem phase2Step_matched_mono {books : List BookTxn} {s : ReconState}
    {b : BankTxn} {m : MatchedTxn} (h : m ∈ s.matched) :
    m ∈ (phase2Step books s b).matched := by
  rcases @phase2Step_cases books s b with hc | ⟨t0, -, -, hc⟩
  · rw [hc]
    exact h
  · rw [hc]
    exact List.mem_append_left _ h

theorem phase3Step_matched_mono {d : ℕ} {p : ℚ} {books : List BookTxn}
    {s : ReconState} {b : BankTxn} {m : MatchedTxn} (h : m ∈ s.matched) :
    m ∈ (phase3Step d p books s b).matched := by
  rcases @phase3Step_cases d p books s b
    with hc | ⟨m0, t0, -, -, -, hc⟩
  · rw [hc]
    exact h
  · rw [hc]
    exact List.mem_append_left _ h

theorem phase1Step_gatesInv {d : ℕ} {p : ℚ} (hp : 0 ≤ p)
    {books : List BookTxn} (s : ReconState) (b : BankTxn)
    (hI : reconGatesInv d p s) : reconGatesInv d p (phase1Step d p books s b) := by
  intro m hm hne
  rcases @phase1Step_cases d p books s b
    with hc | ⟨m0, t0, -, -, htm, -, hc⟩
  · rw [hc] at hm
    exact hI m hm hne
  · rw [hc] at hm
    rcases List.mem_append.mp hm with h | h
    · exact hI m h hne
    · rw [List.mem_singleton] at h
      subst h
      exact tryMatch_gates hp htm

theorem phase2Step_gatesInv {d : ℕ} {p : ℚ} {books : List BookTxn}
    (s : ReconState) (b : BankTxn)
    (hI : reconGatesInv d p s) : reconGatesInv d p (phase2Step books s b) := by
  intro m hm hne
  rcases @phase2Step_cases books s b
    with hc | ⟨t0, -, -, hc⟩
  · rw [hc] at hm
    exact hI m hm hne
  · rw [hc] at hm
    rcases List.mem_append.mp hm with h | h
    · exact hI m h hne
    · rw [List.mem_singleton] at h
      subst h
      exact absurd rfl hne

theorem phase3Step_gatesInv {d : ℕ} {p : ℚ} (hp : 0 ≤ p)
    {books : List BookTxn} (s : ReconState) (b : BankTxn)
    (hI : reconGatesInv d p s) : reconGatesInv d p (phase3Step d p books s b) := by
  intro m hm hne
  rcases @phase3Step_cases d p books s b
    with hc | ⟨m0, t0, -, -, htm, hc⟩
  · rw [hc] at hm
    exact hI m hm hne
  · rw [hc] at hm
    rcases List.mem_append.mp hm with h | h
    · exact hI m h hne
    · rw [List.mem_singleton] at h
      subst h
      exact tryMatch_gates hp htm

theorem reconInv_extend {s : ReconState} {b : BankTxn} {t : BookTxn}
    {m0 : MatchedTxn} (hI : reconIdInv s)
    (hb : b.id ∉ s.bankIds) (ht : t.id ∉ s.bookIds)
    (hbm : m0.bankTxn = b) (htm : m0.bookTxn = t) :
    reconIdInv ⟨s.bankIds ++ [b.id], s.bookIds ++ [t.id], s.matched ++ [m0]⟩ := by
  obtain ⟨h1, h2, h3⟩ := hI
  refine ⟨?_, ?_, ?_⟩
  · rw [List.map_append, List.map_cons, List.map_nil]
    apply nodup_append_singleton h1
    intro hmem
    rw [List.mem_map] at hmem
    obtain ⟨m, hm, hid⟩ := hmem
    apply hb
    rw [← hbm, ← hid]
    exact (h3 m hm).1
  · rw [List.map_append, List.map_cons, List.map_nil]
    apply nodup_append_singleton h2
    intro hmem
    rw [List.mem_map] at hmem
    obtain ⟨m, hm, hid⟩ := hmem
    apply ht
    rw [← htm, ← hid]
    exact (h3 m hm).2
  · intro m hm
    rcases List.mem_append.mp hm with h | h
    · obtain ⟨ha, hk⟩ := h3 m h
      exact ⟨List.mem_append_left _ ha, List.mem_append_left _ hk⟩
    · rw [List.mem_singleton] at h
      subst h
      rw [hbm, htm]
      exact ⟨List.mem_append_right _ (List.mem_singleton_self _),
             List.mem_append_right _ (List.mem_singleton_self _)⟩

theorem phase1Step_idInv {d : ℕ} {p : ℚ} {books : List BookTxn}
    (s : ReconState) (b : BankTxn)
    (hI : reconIdInv s) : reconIdInv (phase1Step d p books s b) := by
  rcases @phase1Step_cases d p books s b
    with hc | ⟨m0, t0, hb, ht, htm, -, hc⟩
  · rw [hc]
    exact hI
  · rw [hc]
    obtain ⟨hbm, hkm⟩ := tryMatch_bank_book htm
    exact reconInv_extend hI hb ht hbm hkm

theorem phase2Step_idInv {books : List BookTxn} (s : ReconState) (b : BankTxn)
    (hI : reconIdInv s) : reconIdInv (phase2Step books s b) := by
  rcases @phase2Step_cases books s b
    with hc | ⟨t0, hb, ht, hc⟩
  · rw [hc]
    exact hI
  · rw [hc]
    exact reconInv_extend hI hb ht rfl rfl

theorem phase3Step_idInv {d : ℕ} {p : ℚ} {books : List BookTxn}
    (s : ReconState) (b : BankTxn)
    (hI : reconIdInv s) : reconIdInv (phase3Step d p books s b) := by
  rcases @phase3Step_cases d p books s b
    with hc | ⟨m0, t0, hb, ht, htm, hc⟩
  · rw [hc]
    exact hI
  · rw [hc]
    obtain ⟨hbm, hkm⟩ := tryMatch_bank_book htm
    exact reconInv_extend hI hb ht hbm hkm

/-! ## Claims -/

/-- C8: for every `ReconciliationResult`, `difference` equals the bank
closing balance minus the book closing balance, and `is_reconciled` holds
iff `|difference| < 0.01` and the unmatched-bank list is empty; unmatched
book items play no role. -/
theorem c8_reconciled_predicate (r : ReconciliationResult) :
    r.difference = r.bankClosingBalance - r.bookClosingBalance ∧
    (r.isReconciled = true ↔ |r.difference| < 1/100 ∧ r.unmatchedBank = []) := by
  refine ⟨qSub_eq _ _, ?_⟩
  have h : (mkRat 1 100 : ℚ) = 1/100 := by
    rw [Rat.mkRat_eq_div]; norm_num
  rw [ReconciliationResult.isReconciled, Bool.and_eq_true, decide_eq_true_iff,
    List.isEmpty_iff, qAbs_eq, h]

/-- C10: the derived rates are total on empty inputs: `match_rate` is 0
when both the matched and unmatched-bank lists are empty, and
`duplicate_rate` is 0 when the checked batch is empty. -/
theorem c10_rates_total :
    (∀ r : ReconciliationResult, r.matched = [] → r.unmatchedBank = [] →
      r.matchRate = 0) ∧
    (∀ (dateTol : ℕ) (amtTol : ℚ) (existing : List ParsedTxn),
      (checkBatch dateTol amtTol [] existing).stats.duplicateRate = 0) := by
  constructor
  · intro r h1 h2
    simp [ReconciliationResult.matchRate, h1, h2]
  · intro dateTol amtTol existing
    rfl

/-- C10 witness: the theorem applied to an empty result and an empty
batch. -/
theorem c10_rates_total_witness :
    ReconciliationResult.matchRate ⟨0, 0, 0, 0, [], [], []⟩ = 0 ∧
    (checkBatch 1 (mkRat 1 100) [] []).stats.duplicateRate = 0 :=
  ⟨c10_rates_total.1 ⟨0, 0, 0, 0, [], [], []⟩ rfl rfl,
   c10_rates_total.2 1 (mkRat 1 100) []⟩

/-- C5 counterexample: the content hash of `ParsedTransaction` does NOT
cover the reference: two transactions agreeing on (date, description,
amount) but differing in reference are hash-identical, so "hash-identical
iff (date, amount, description, reference) agree" fails. -/
theorem c5_counterexample :
    ParsedTxn.hashData ⟨0, "d", "", 5, some "R1"⟩ =
      ParsedTxn.hashData ⟨0, "d", "", 5, none⟩ ∧
    (⟨0, "d", "", 5, some "R1"⟩ : ParsedTxn).reference ≠
      (⟨0, "d", "", 5, none⟩ : ParsedTxn).reference := by
  decide

/-- C5 (amended): the content hash covers exactly (date, description,
amount) — not the reference and not the id — and every hash-identical pair
short-circuits `_compare_transactions` to confidence 1.0 with the single
reason "Exact hash match" and the definite flag set, regardless of the
configured tolerances. -/
theorem c5_hash_shortcircuit (dateTol : ℕ) (amtTol : ℚ) (t1 t2 : ParsedTxn) :
    (t1.hashData = t2.hashData ↔
      t1.date = t2.date ∧ t1.description = t2.description ∧ t1.amount = t2.amount) ∧
    (t1.hashData = t2.hashData →
      compareTransactions dateTol amtTol t1 t2 =
        some ⟨t1, t2, 1, [Reason.exactHashMatch], true⟩) := by
  constructor
  · simp [ParsedTxn.hashData, Prod.ext_iff]
  · intro h
    simp [compareTransactions, h]

/-- C5 witness: the short-circuit at a concrete hash-identical pair with
extreme tolerances (date tolerance 0, amount tolerance 0). -/
theorem c5_hash_shortcircuit_witness :
    compareTransactions 0 0 ⟨0, "d", "", 5, some "R1"⟩ ⟨0, "d", "", 5, none⟩ =
      some ⟨⟨0, "d", "", 5, some "R1"⟩, ⟨0, "d", "", 5, none⟩, 1,
            [Reason.exactHashMatch], true⟩ :=
  (c5_hash_shortcircuit 0 0 ⟨0, "d", "", 5, some "R1"⟩ ⟨0, "d", "", 5, none⟩).2
    (by decide)

/-- C9 counterexample: zero-amount transactions are not excluded before
matching: a zero-amount bank transaction with an identical zero-amount
book transaction is committed as an exact reconciliation match. -/
theorem c9_counterexample :
    (reconcile [⟨"b", 0, "", 0, none⟩] [⟨"t", 0, "", 0, none⟩]
        0 0 0 0 3 (mkRat 1 100)).matched.map
      (fun m => (m.bankTxn.amount, m.matchType, m.confidence)) =
    [((0 : ℚ), MatchType.exact, (1 : ℚ))] := by
  decide

/-- C9 (amended): the matching engine performs no zero-amount exclusion —
zero-amount rows are dropped upstream by the CSV parsers, but a zero-amount
transaction handed to `reconcile` or `check_batch` is indexed and matched
like any other: the zero-amount reconciliation pair above is matched
(leaving nothing unmatched), and a zero-amount duplicate pair passes
through the candidate index and is reported definite. -/
theorem c9_zero_amount_participates :
    ((reconcile [⟨"b", 0, "", 0, none⟩] [⟨"t", 0, "", 0, none⟩]
        0 0 0 0 3 (mkRat 1 100)).matched.length = 1 ∧
     (reconcile [⟨"b", 0, "", 0, none⟩] [⟨"t", 0, "", 0, none⟩]
        0 0 0 0 3 (mkRat 1 100)).unmatchedBank = []) ∧
    (checkBatch 1 (mkRat 1 100) [⟨0, "z", "", 0, none⟩]
        [⟨0, "z", "", 0, none⟩]).definiteDuplicates.length = 1 := by
  decide

/-- C1 counterexample: the reference phase of `reconcile` has no amount or
date gate: a bank/book pair 151 days and 899 currency units apart (at 1%
tolerance on a 100-unit amount) is still committed, because the references
match. -/
theorem c1_counterexample :
    ∃ m ∈ (reconcile [⟨"b", 0, "", 100, some "A"⟩] [⟨"t", 151, "", 999, some "A"⟩]
        0 0 0 0 3 (mkRat 1 100)).matched,
      3 < (m.bankTxn.date - m.bookTxn.date).natAbs ∧
      qMul (qAbs m.bankTxn.amount) (mkRat 1 100) <
        qAbs (qSub m.bankTxn.amount m.bookTxn.amount) := by
  decide

/-- C2 counterexample: in `check_batch` the matched counterpart is not
removed from the pool: one existing transaction participates in two
reported `DuplicateMatch`es when two batch transactions both duplicate
it. -/
theorem c2_counterexample :
    ((checkBatch 1 (mkRat 1 100) [⟨0, "a", "", 100, none⟩, ⟨0, "a", "", 100, none⟩]
        [⟨0, "a", "", 100, none⟩]).definiteDuplicates.map
      (fun m => m.matchedWith)).count ⟨0, "a", "", 100, none⟩ = 2 := by
  decide

/-- C4 counterexample: tightening a tolerance can INCREASE the whole-run
counts.  Dedup: lowering the date tolerance from 1 to 0 days raises the
reported-duplicate count from 1 to 2 (a batch item stops matching history,
is accepted unique, and then attracts two later batch items).
Reconciliation: halving the amount tolerance raises the matched count from
1 to 2 (the greedy phase-3 scan stops stealing the only candidate of a
later bank transaction). -/
theorem c4_counterexample :
    ((checkBatch 1 (mkRat 1 100)
        [⟨1, "alpha", "", 100, none⟩, ⟨1, "alpha", "", mkRat 503 5, none⟩,
         ⟨1, "alpha", "", mkRat 497 5, none⟩]
        [⟨0, "alpha", "", 100, none⟩]).potentialDuplicates.length +
     (checkBatch 1 (mkRat 1 100)
        [⟨1, "alpha", "", 100, none⟩, ⟨1, "alpha", "", mkRat 503 5, none⟩,
         ⟨1, "alpha", "", mkRat 497 5, none⟩]
        [⟨0, "alpha", "", 100, none⟩]).definiteDuplicates.length = 1) ∧
    ((checkBatch 0 (mkRat 1 100)
        [⟨1, "alpha", "", 100, none⟩, ⟨1, "alpha", "", mkRat 503 5, none⟩,
         ⟨1, "alpha", "", mkRat 497 5, none⟩]
        [⟨0, "alpha", "", 100, none⟩]).potentialDuplicates.length +
     (checkBatch 0 (mkRat 1 100)
        [⟨1, "alpha", "", 100, none⟩, ⟨1, "alpha", "", mkRat 503 5, none⟩,
         ⟨1, "alpha", "", mkRat 497 5, none⟩]
        [⟨0, "alpha", "", 100, none⟩]).definiteDuplicates.length = 2) ∧
    ((reconcile [⟨"b1", 0, "", 100, none⟩, ⟨"b2", 1, "", mkRat 504 5, none⟩]
        [⟨"x", 0, "", mkRat 504 5, none⟩, ⟨"y", 1, "", mkRat 997 10, none⟩]
        0 0 0 0 3 (mkRat 1 100)).matched.length = 1) ∧
    ((reconcile [⟨"b1", 0, "", 100, none⟩, ⟨"b2", 1, "", mkRat 504 5, none⟩]
        [⟨"x", 0, "", mkRat 504 5, none⟩, ⟨"y", 1, "", mkRat 997 10, none⟩]
        0 0 0 0 3 (mkRat 1 200)).matched.length = 2) := by
  decide

/-- C6 counterexample: in phase 3, two candidates with equal confidence
0.95 are split by book-list order, not by smallest amount difference: the
committed book transaction is "y" with amount difference 0.9, although "z"
also passes every gate with the same confidence and a smaller amount
difference 0.1. -/
theorem c6_counterexample :
    ((reconcile [⟨"b", 0, "", 100, none⟩]
        [⟨"y", 0, "", mkRat 991 10, none⟩, ⟨"z", 0, "", mkRat 1001 10, none⟩]
        0 0 0 0 3 (mkRat 1 100)).matched.map
      (fun m => (m.bookTxn.id, m.confidence, m.amountDiff)) =
      [("y", mkRat 19 20, mkRat 9 10)]) ∧
    tryMatch 3 (mkRat 1 100) ⟨"b", 0, "", 100, none⟩ ⟨"z", 0, "", mkRat 1001 10, none⟩ =
      some (createMatch ⟨"b", 0, "", 100, none⟩ ⟨"z", 0, "", mkRat 1001 10, none⟩
        MatchType.amountOnly (mkRat 19 20)) ∧
    (mkRat 1 10 < mkRat 9 10) := by
  decide

set_option maxRecDepth 40000 in
set_option maxHeartbeats 4000000 in
/-- C3: evaluation of `check_batch` at the failing input.  A batch of 100
pairwise non-duplicate transactions followed by an exact copy of the first
one (hash-identical, so the spec requires it to be reported definite):
because the candidate index was built from the (empty) existing history
only and the within-batch uniques list has reached 100 elements, the
shortlist filter of `_find_duplicate` removes every candidate and the copy
is classified unique — all 101 transactions come back unique and nothing
is reported.  The same batch cut to 4 + 1 elements (small-collection
bypass active) reports the copy as a definite duplicate. -/
theorem c3_failing_input_eval :
    ((checkBatch 1 (mkRat 1 100)
        ((List.range 100).map (fun k => (⟨0, "t", "", (1000 * k : ℕ), none⟩ : ParsedTxn)) ++
          [⟨0, "t", "", 0, none⟩]) []).uniqueTransactions.length = 101 ∧
     (checkBatch 1 (mkRat 1 100)
        ((List.range 100).map (fun k => (⟨0, "t", "", (1000 * k : ℕ), none⟩ : ParsedTxn)) ++
          [⟨0, "t", "", 0, none⟩]) []).potentialDuplicates = [] ∧
     (checkBatch 1 (mkRat 1 100)
        ((List.range 100).map (fun k => (⟨0, "t", "", (1000 * k : ℕ), none⟩ : ParsedTxn)) ++
          [⟨0, "t", "", 0, none⟩]) []).definiteDuplicates = []) ∧
    ((checkBatch 1 (mkRat 1 100)
        ((List.range 4).map (fun k => (⟨0, "t", "", (1000 * k : ℕ), none⟩ : ParsedTxn)) ++
          [⟨0, "t", "", 0, none⟩]) []).definiteDuplicates.length = 1) := by
  decide

/-- C6 (amended): phase 3 commits, for each bank transaction, the passing
candidate with the highest confidence, ties broken by candidate order (the
book list sorted by `(date, amount)`) alone: `pickBest` — the model of
`sort(key=confidence, reverse=True)` followed by `[0]` — returns exactly
the first candidate whose confidence dominates every other candidate.
Date and amount differences play no part in tie-breaking. -/
theorem c6_pick_first_max (cands : List (MatchedTxn × BookTxn)) :
    pickBest (fun c => c.1.confidence) cands =
      cands.find? (fun c =>
        cands.all (fun e => decide (e.1.confidence ≤ c.1.confidence))) :=
  pickBest_eq_first_max cands

/-- C4 (amended): tolerances act antitonically on each PAIRWISE comparison:
tightening the date or amount tolerance never makes `_try_match` newly
succeed (a match found under the tight tolerances is returned unchanged
under the loose ones), and never makes `_compare_transactions` newly
report (a report under the tight tolerances is still reported with the
same confidence, classification and pair under the loose ones).  Run-level
matched/duplicate counts are NOT monotone (see the counterexample). -/
theorem c4_pairwise_antitone :
    (∀ (d dt : ℕ) (p pt : ℚ) (b : BankTxn) (t : BookTxn) (m : MatchedTxn),
      dt ≤ d → pt ≤ p → tryMatch dt pt b t = some m → tryMatch d p b t = some m) ∧
    (∀ (d dt : ℕ) (p pt : ℚ) (t1 t2 : ParsedTxn) (m : DuplicateMatch),
      dt ≤ d → pt ≤ p → compareTransactions dt pt t1 t2 = some m →
      ∃ m2, compareTransactions d p t1 t2 = some m2 ∧
        m2.confidence = m.confidence ∧ m2.isLikelyDuplicate = m.isLikelyDuplicate ∧
        m2.transaction = m.transaction ∧ m2.matchedWith = m.matchedWith) :=
  ⟨fun _ _ _ _ _ _ _ hd hp h => tryMatch_antitone hd hp _ _ _ h,
   fun _ _ _ _ _ _ _ hd hp h => compare_antitone hd hp _ _ _ h⟩

/-- C4 witness: a fuzzy match found at tolerances (2 days, 0.5%) is
returned unchanged at the default tolerances (3 days, 1%). -/
theorem c4_pairwise_antitone_witness :
    tryMatch 3 (mkRat 1 100) ⟨"b", 0, "", 100, none⟩ ⟨"t", 1, "", 100, none⟩ =
      some (createMatch ⟨"b", 0, "", 100, none⟩ ⟨"t", 1, "", 100, none⟩
        MatchType.fuzzy (mkRat 9 10)) :=
  c4_pairwise_antitone.1 3 2 (mkRat 1 100) (mkRat 1 200)
    ⟨"b", 0, "", 100, none⟩ ⟨"t", 1, "", 100, none⟩
    (createMatch ⟨"b", 0, "", 100, none⟩ ⟨"t", 1, "", 100, none⟩
      MatchType.fuzzy (mkRat 9 10))
    (by decide) (by decide) (by decide)

/-- C1 (amended): the hard gates hold for every committed pair EXCEPT the
reference phase: every `reconcile` match whose type is not `reference`
has date difference at most the date tolerance and amount difference at
most `|bank amount| * tolerance`; and every `DuplicateMatch` reported by
`check_batch` or `check_single` respects both detector tolerances.
Reference-phase matches are exempt from both gates (see the
counterexample). -/
theorem c1_hard_gates :
    (∀ (bankTxns : List BankTxn) (bookTxns : List BookTxn) (bo bc ko kc : ℚ)
       (d : ℕ) (p : ℚ), 0 ≤ p →
       ∀ m ∈ (reconcile bankTxns bookTxns bo bc ko kc d p).matched,
         m.matchType ≠ MatchType.reference →
         (m.bankTxn.date - m.bookTxn.date).natAbs ≤ d ∧
         |m.bankTxn.amount - m.bookTxn.amount| ≤ |m.bankTxn.amount| * p) ∧
    (∀ (d : ℕ) (p : ℚ) (txns existing : List ParsedTxn), 0 ≤ p →
       ∀ m ∈ (checkBatch d p txns existing).potentialDuplicates ++
             (checkBatch d p txns existing).definiteDuplicates,
         (m.transaction.date - m.matchedWith.date).natAbs ≤ d ∧
         |m.transaction.amount - m.matchedWith.amount| ≤
           |m.transaction.amount| * p) ∧
    (∀ (d : ℕ) (p : ℚ) (t : ParsedTxn) (existing : List ParsedTxn)
       (m : DuplicateMatch), 0 ≤ p → checkSingle d p t existing = some m →
       (m.transaction.date - m.matchedWith.date).natAbs ≤ d ∧
       |m.transaction.amount - m.matchedWith.amount| ≤
         |m.transaction.amount| * p) := by
  refine ⟨?_, fun d p txns ex hp => checkBatch_gates hp txns ex,
    fun d p t ex m hp h => checkSingle_gates hp h⟩
  intro bankTxns bookTxns bo bc ko kc d p hp
  have hfinal : reconGatesInv d p
      ((stableSort bankLt bankTxns).foldl
        (phase3Step d p (stableSort bookLt bookTxns))
        ((stableSort bankLt bankTxns).foldl
          (phase2Step (stableSort bookLt bookTxns))
          ((stableSort bankLt bankTxns).foldl
            (phase1Step d p (stableSort bookLt bookTxns)) ⟨[], [], []⟩))) := by
    apply foldl_preserve (fun s b => phase3Step_gatesInv hp s b)
    apply foldl_preserve (fun s b => phase2Step_gatesInv s b)
    apply foldl_preserve (fun s b => phase1Step_gatesInv hp s b)
    intro m hm
    cases hm
  exact hfinal

/-- C1 witness: the single exact match of a one-pair run satisfies both
gates at the default tolerances. -/
theorem c1_hard_gates_witness :
    ((createMatch ⟨"b", 0, "", 5000, none⟩ ⟨"t", 0, "", 5000, none⟩
        MatchType.exact 1).bankTxn.date -
     (createMatch ⟨"b", 0, "", 5000, none⟩ ⟨"t", 0, "", 5000, none⟩
        MatchType.exact 1).bookTxn.date).natAbs ≤ 3 ∧
    |(createMatch ⟨"b", 0, "", 5000, none⟩ ⟨"t", 0, "", 5000, none⟩
        MatchType.exact 1).bankTxn.amount -
     (createMatch ⟨"b", 0, "", 5000, none⟩ ⟨"t", 0, "", 5000, none⟩
        MatchType.exact 1).bookTxn.amount| ≤
    |(createMatch ⟨"b", 0, "", 5000, none⟩ ⟨"t", 0, "", 5000, none⟩
        MatchType.exact 1).bankTxn.amount| * mkRat 1 100 :=
  c1_hard_gates.1 [⟨"b", 0, "", 5000, none⟩] [⟨"t", 0, "", 5000, none⟩]
    0 0 0 0 3 (mkRat 1 100) (by decide)
    (createMatch ⟨"b", 0, "", 5000, none⟩ ⟨"t", 0, "", 5000, none⟩
      MatchType.exact 1)
    (by decide) (by decide)

/-- C2 (amended): in `reconcile` each bank id and each book id appears in
at most one committed match (the matched lists of ids have no duplicates,
with no assumption on the inputs); in `check_batch` each new transaction
yields exactly one outcome — reported duplicates plus accepted uniques
partition the batch by count — but the matched counterpart is never
consumed and can appear in several reported matches per run (see the
counterexample). -/
theorem c2_at_most_one :
    (∀ (bankTxns : List BankTxn) (bookTxns : List BookTxn) (bo bc ko kc : ℚ)
       (d : ℕ) (p : ℚ),
       ((reconcile bankTxns bookTxns bo bc ko kc d p).matched.map
         (fun m => m.bankTxn.id)).Nodup ∧
       ((reconcile bankTxns bookTxns bo bc ko kc d p).matched.map
         (fun m => m.bookTxn.id)).Nodup) ∧
    (∀ (d : ℕ) (p : ℚ) (txns existing : List ParsedTxn),
       (checkBatch d p txns existing).potentialDuplicates.length +
       (checkBatch d p txns existing).definiteDuplicates.length +
       (checkBatch d p txns existing).uniqueTransactions.length =
         txns.length) := by
  refine ⟨?_, fun d p txns ex => checkBatch_count txns ex⟩
  intro bankTxns bookTxns bo bc ko kc d p
  have hfinal : reconIdInv
      ((stableSort bankLt bankTxns).foldl
        (phase3Step d p (stableSort bookLt bookTxns))
        ((stableSort bankLt bankTxns).foldl
          (phase2Step (stableSort bookLt bookTxns))
          ((stableSort bankLt bankTxns).foldl
            (phase1Step d p (stableSort bookLt bookTxns)) ⟨[], [], []⟩))) := by
    apply foldl_preserve (fun s b => phase3Step_idInv s b)
    apply foldl_preserve (fun s b => phase2Step_idInv s b)
    apply foldl_preserve (fun s b => phase1Step_idInv s b)
    exact ⟨List.nodup_nil, List.nodup_nil, by intro m hm; cases hm⟩
  exact ⟨hfinal.1, hfinal.2.1⟩

/-- C7: reference-phase precedence.  For any run, decompose the sorted bank
list as `pre ++ b :: post` and let `S` be the state when phase 2 reaches
`b` (phase 1 complete, phase 2 done on `pre`).  If `b` is still unmatched,
its reference `r` is non-empty, and some book transaction `t` is still
unmatched with a non-empty reference containing `r` as a substring, then a
match with bank side `b`, type `reference` and confidence 0.9 is committed
during phase 2 — it is already in the phase-2 state's matched list, before
the tolerance phase runs — and survives into the final result. -/
theorem c7_reference_phase
    (bankTxns : List BankTxn) (bookTxns : List BookTxn) (bo bc ko kc : ℚ)
    (d : ℕ) (p : ℚ) (pre post : List BankTxn) (b : BankTxn) (r : String)
    (t : BookTxn) (r2 : String)
    (hsort : stableSort bankLt bankTxns = pre ++ b :: post)
    (hb : b.id ∉ (phase2Run pre (stableSort bookLt bookTxns)
        (phase1Run d p (stableSort bankLt bankTxns)
          (stableSort bookLt bookTxns))).bankIds)
    (href : b.reference = some r) (hr : r ≠ "")
    (ht : t ∈ stableSort bookLt bookTxns)
    (htid : t.id ∉ (phase2Run pre (stableSort bookLt bookTxns)
        (phase1Run d p (stableSort bankLt bankTxns)
          (stableSort bookLt bookTxns))).bookIds)
    (htr : t.reference = some r2) (hr2 : r2 ≠ "")
    (hsub : strOccurs r r2 = true) :
    ∃ m, m ∈ (phase2Run (stableSort bankLt bankTxns)
        (stableSort bookLt bookTxns)
        (phase1Run d p (stableSort bankLt bankTxns)
          (stableSort bookLt bookTxns))).matched ∧
      m ∈ (reconcile bankTxns bookTxns bo bc ko kc d p).matched ∧
      m.bankTxn = b ∧ m.matchType = MatchType.reference ∧
      m.confidence = mkRat 9 10 := by
  have hrefok : refOk b.reference = true := by
    rw [href]
    simpa [refOk] using hr
  have hprobe : phase2Probe (phase2Run pre (stableSort bookLt bookTxns)
      (phase1Run d p (stableSort bankLt bankTxns)
        (stableSort bookLt bookTxns))) b t = some t := by
    rw [phase2Probe, if_neg htid]
    have hcond : (refOk t.reference &&
        strOccurs (b.reference.getD "") (t.reference.getD "")) = true := by
      rw [htr, href]
      simp [refOk, hr2, hsub]
    rw [if_pos hcond]
  obtain ⟨t2, hfs⟩ := firstSome_isSome_of_mem ht hprobe
  have hcommit := phase2Step_commit hb hrefok hfs
  have hsplit : ∀ s0 : ReconState,
      phase2Run (pre ++ b :: post) (stableSort bookLt bookTxns) s0 =
        phase2Run post (stableSort bookLt bookTxns)
          (phase2Step (stableSort bookLt bookTxns)
            (phase2Run pre (stableSort bookLt bookTxns) s0) b) := by
    intro s0
    simp only [phase2Run]
    rw [List.foldl_append, List.foldl_cons]
  have heq : phase2Run (stableSort bankLt bankTxns)
      (stableSort bookLt bookTxns)
      (phase1Run d p (stableSort bankLt bankTxns)
        (stableSort bookLt bookTxns)) =
      phase2Run post (stableSort bookLt bookTxns)
        (phase2Step (stableSort bookLt bookTxns)
          (phase2Run pre (stableSort bookLt bookTxns)
            (phase1Run d p (stableSort bankLt bankTxns)
              (stableSort bookLt bookTxns))) b) := by
    rw [hsort]
    exact hsplit _
  have hin2 : createMatch b t2 MatchType.reference (mkRat 9 10) ∈
      (phase2Run (stableSort bankLt bankTxns) (stableSort bookLt bookTxns)
        (phase1Run d p (stableSort bankLt bankTxns)
          (stableSort bookLt bookTxns))).matched := by
    rw [heq, hcommit]
    simp only [phase2Run]
    apply foldl_preserve
      (fun s b2 (h : createMatch b t2 MatchType.reference (mkRat 9 10) ∈
        ReconState.matched s) => phase2Step_matched_mono h) post
    exact List.mem_append_right _ (List.mem_singleton_self _)
  have hin3 : createMatch b t2 MatchType.reference (mkRat 9 10) ∈
      (phase3Run d p (stableSort bankLt bankTxns) (stableSort bookLt bookTxns)
        (phase2Run (stableSort bankLt bankTxns) (stableSort bookLt bookTxns)
          (phase1Run d p (stableSort bankLt bankTxns)
            (stableSort bookLt bookTxns)))).matched := by
    simp only [phase3Run]
    exact foldl_preserve
      (fun s b2 (h : createMatch b t2 MatchType.reference (mkRat 9 10) ∈
        ReconState.matched s) => phase3Step_matched_mono h)
      (stableSort bankLt bankTxns) _ hin2
  exact ⟨createMatch b t2 MatchType.reference (mkRat 9 10),
    hin2, hin3, rfl, rfl, rfl⟩

/-- C7 witness: the PAY001 scenario — bank (day 16, 50000, ref "PAY001")
against book (day 15, 50000, ref "PAY001") is matched in phase 2 as a
reference match with confidence 0.9, not left to the tolerance phase. -/
theorem c7_reference_phase_witness :
    ∃ m, m ∈ (phase2Run (stableSort bankLt [⟨"b", 16, "", 50000, some "PAY001"⟩])
        (stableSort bookLt [⟨"t", 15, "", 50000, some "PAY001"⟩])
        (phase1Run 3 (mkRat 1 100)
          (stableSort bankLt [⟨"b", 16, "", 50000, some "PAY001"⟩])
          (stableSort bookLt [⟨"t", 15, "", 50000, some "PAY001"⟩]))).matched ∧
      m ∈ (reconcile [⟨"b", 16, "", 50000, some "PAY001"⟩]
        [⟨"t", 15, "", 50000, some "PAY001"⟩]
        0 0 0 0 3 (mkRat 1 100)).matched ∧
      m.bankTxn = ⟨"b", 16, "", 50000, some "PAY001"⟩ ∧
      m.matchType = MatchType.reference ∧ m.confidence = mkRat 9 10 :=
  c7_reference_phase [⟨"b", 16, "", 50000, some "PAY001"⟩]
    [⟨"t", 15, "", 50000, some "PAY001"⟩] 0 0 0 0 3 (mkRat 1 100)
    [] [] ⟨"b", 16, "", 50000, some "PAY001"⟩ "PAY001"
    ⟨"t", 15, "", 50000, some "PAY001"⟩ "PAY001"
    (by decide) (by decide) (by decide) (by decide) (by decide)
    (by decide) (by decide) (by decide) (by decide)

end AccountingAutomation
